import Mathlib

set_option maxHeartbeats 1000000

namespace KVDB

/-- Failure conditions of the database engine in src/database.cpp. The first six
name the runtime errors the code throws explicitly; OutOfRange models the
std::out_of_range exception raised by std::map::at on a missing key; and
UndefinedBehavior marks control paths on which the C++ source has undefined
behaviour (dereferencing the end iterator of an empty instruction map, or
dereferencing a null final_value pointer). -/
inductive DbError where
  | ZombieKey
  | WriteLost
  | NoSuchTransaction
  | DuplicateTransaction
  | TransactionConflict
  | CommitFailed
  | OutOfRange
  | UndefinedBehavior
  deriving DecidableEq

/-- Association list lookup: the model of std::map::find and std::map::at. -/
def mapFind {α : Type} (m : List (String × α)) (k : String) : Option α :=
  match m with
  | [] => none
  | (k1, v) :: rest => if k1 = k then some v else mapFind rest k

/-- Update the value stored under a key in place: the model of mutating map.at(k). -/
def mapAssign {α : Type} (m : List (String × α)) (k : String) (f : α → α) : List (String × α) :=
  match m with
  | [] => []
  | (k1, v) :: rest =>
    if k1 = k then (k1, f v) :: mapAssign rest k f
    else (k1, v) :: mapAssign rest k f

/-- Model of std::map::emplace for the data store and the transaction store:
inserts only when the key is absent. The position of the new pair in the list is
irrelevant to the model because neither of those two maps is ever iterated. -/
def mapEmplace {α : Type} (m : List (String × α)) (k : String) (v : α) : List (String × α) :=
  if (mapFind m k).isSome then m else (k, v) :: m

/-- Model of std::map::erase by key. -/
def mapErase {α : Type} (m : List (String × α)) (k : String) : List (String × α) :=
  match m with
  | [] => []
  | (k1, v) :: rest => if k1 = k then mapErase rest k else (k1, v) :: mapErase rest k

/-- Lexicographic strict order on character lists by code point: the model of
the std::string ordering that std::map uses for its keys (for the ASCII keys of
this development the two orders agree). -/
def charListLt : List Char → List Char → Bool
  | [], [] => false
  | [], _ :: _ => true
  | _ :: _, [] => false
  | a :: as, b :: bs =>
    if a.toNat < b.toNat then true
    else if b.toNat < a.toNat then false
    else charListLt as bs

/-- Strict order on strings, the model of std::string operator less-than. -/
def strLt (a b : String) : Bool := charListLt a.data b.data

/-- Ordered emplace: the model of std::map::emplace for the per-transaction
instruction map, whose iteration order (lexicographic on the key) matters to the
commit protocol. No-op when the key is already present, like emplace. -/
def mapInsertSorted {α : Type} (m : List (String × α)) (k : String) (v : α) : List (String × α) :=
  match m with
  | [] => [(k, v)]
  | (k1, v1) :: rest =>
    if strLt k k1 then (k, v) :: (k1, v1) :: rest
    else if k = k1 then (k1, v1) :: rest
    else (k1, v1) :: mapInsertSorted rest k v

/-- DataItem, src/database.cpp lines 38-45: the stored value and the liveness
flag. The two mutexes have no single-threaded content; the commit model instead
tracks write-mutex acquisitions and releases explicitly (see CommitResult). -/
structure DataItem where
  value : String
  alive : Bool
  deriving DecidableEq

/-- MutatingInstructionTypes, src/database.cpp lines 29-32. -/
inductive MutatingInstructionTypes where
  | Put
  | Erase
  deriving DecidableEq

/-- Instruction, src/database.cpp lines 50-55. The two owned string pointers
become optional strings; a null pointer is none. -/
structure Instruction where
  key : String
  initial_value : Option String
  final_value : Option String
  instruction_type : MutatingInstructionTypes
  deriving DecidableEq

/-- Transaction, src/database.cpp lines 60-65: the key-ordered instruction map
and the liveness flag; trans_lock has no single-threaded content. -/
structure Transaction where
  instructions : List (String × Instruction)
  alive : Bool
  deriving DecidableEq

/-- DatabasePrivate, src/database.cpp lines 70-81: the entry map and the
transaction map. -/
structure Database where
  data : List (String × DataItem)
  transactions : List (String × Transaction)
  deriving DecidableEq

/-- dataHasKey, src/database.cpp lines 98-102. -/
def dataHasKey (db : Database) (k : String) : Bool :=
  (mapFind db.data k).isSome

/-- keyIsAlive, src/database.cpp lines 107-111: dataHasKey(key) and
data.at(key).alive. -/
def keyIsAlive (db : Database) (k : String) : Bool :=
  match mapFind db.data k with
  | some item => item.alive
  | none => false

/-- Value stored under a key when the key is present: data.at(key).value. -/
def entryValue (db : Database) (k : String) : Option String :=
  (mapFind db.data k).map DataItem.value

/-- transactionsHasId, src/database.cpp lines 116-120. -/
def transactionsHasId (db : Database) (tid : String) : Bool :=
  (mapFind db.transactions tid).isSome

/-- transactionHasKey, src/database.cpp lines 125-130. The C++ calls
transactions.at(tid), which every call site guards with transactionsHasId or
transactionIsAlive, so the none branch is unreachable there. -/
def transactionHasKey (db : Database) (tid k : String) : Bool :=
  match mapFind db.transactions tid with
  | some t => (mapFind t.instructions k).isSome
  | none => false

/-- transactionIsAlive, src/database.cpp lines 135-139. -/
def transactionIsAlive (db : Database) (tid : String) : Bool :=
  match mapFind db.transactions tid with
  | some t => t.alive
  | none => false

/-- Post-condition check of the auto-commit put, src/database.cpp lines 167-169:
under the write guard, the published value must equal the requested one,
otherwise the put fails (WriteLost). -/
def putPostCheck (db : Database) (key value : String) : Database × Option DbError :=
  match mapFind db.data key with
  | some item => if item.value ≠ value then (db, some DbError.WriteLost) else (db, none)
  | none => (db, some DbError.OutOfRange)

/-- Auto-commit put, src/database.cpp lines 151-170. -/
def put (db : Database) (key value : String) : Database × Option DbError :=
  if dataHasKey db key then
    if !(keyIsAlive db key) then (db, some DbError.ZombieKey)
    else
      putPostCheck
        { db with data := mapAssign db.data key (fun item => { item with value := value }) }
        key value
  else
    putPostCheck
      { db with data := mapEmplace db.data key { value := value, alive := true } }
      key value

/-- The instruction a transaction-scoped put constructs when it first stages a
key, src/database.cpp lines 185-192: the snapshot initial_value is taken
whenever dataHasKey holds, with no liveness test (line 190); final_value is the
requested value and the kind is Put. -/
def newPutInstruction (db : Database) (key value : String) : Instruction :=
  { key := key
    initial_value := if dataHasKey db key then entryValue db key else none
    final_value := some value
    instruction_type := MutatingInstructionTypes.Put }

/-- Transaction-scoped put, src/database.cpp lines 172-199. When the key is
already staged, the code assigns through the final_value pointer (undefined
behaviour when that pointer is null, which never happens for instructions the
API creates). When the key is new, a fresh instruction is inserted in key
order. -/
def putTxn (db : Database) (key value tid : String) : Database × Option DbError :=
  if transactionIsAlive db tid then
    match mapFind db.transactions tid with
    | none => (db, some DbError.OutOfRange)
    | some t =>
      match mapFind t.instructions key with
      | some i =>
        match i.final_value with
        | none => (db, some DbError.UndefinedBehavior)
        | some _ =>
          ({ db with transactions := mapAssign db.transactions tid (fun t1 =>
              { t1 with instructions := mapAssign t1.instructions key (fun i1 =>
                  { i1 with final_value := some value,
                            instruction_type := MutatingInstructionTypes.Put }) }) },
           none)
      | none =>
        ({ db with transactions := mapAssign db.transactions tid (fun t1 =>
            { t1 with instructions :=
                mapInsertSorted t1.instructions key (newPutInstruction db key value) }) },
         none)
  else (db, some DbError.NoSuchTransaction)

/-- Auto-commit get, src/database.cpp lines 201-210. -/
def get (db : Database) (key : String) : Option String :=
  if keyIsAlive db key then entryValue db key else none

/-- Transaction-scoped get, src/database.cpp lines 212-229. The staged branch
returns a copy of final_value when that pointer is non-null and null otherwise;
it does not inspect instruction_type. When the key is not staged it falls
through to the auto-commit get. -/
def getTxn (db : Database) (key tid : String) : Except DbError (Option String) :=
  if transactionIsAlive db tid then
    if transactionHasKey db tid key then
      match mapFind db.transactions tid with
      | none => Except.error DbError.OutOfRange
      | some t =>
        match mapFind t.instructions key with
        | some i => Except.ok i.final_value
        | none => Except.error DbError.OutOfRange
    else Except.ok (get db key)
  else Except.error DbError.NoSuchTransaction

/-- Auto-commit erase, src/database.cpp lines 231-240; it has no failure path. -/
def erase (db : Database) (key : String) : Database :=
  if keyIsAlive db key then { db with data := mapErase db.data key } else db

/-- Transaction-scoped erase, src/database.cpp lines 242-252; note that it checks
only transactionsHasId, never liveness, and silently does nothing when the id or
the key is unknown. -/
def eraseTxn (db : Database) (key tid : String) : Database × Option DbError :=
  if transactionsHasId db tid then
    if transactionHasKey db tid key then
      ({ db with transactions := mapAssign db.transactions tid (fun t1 =>
          { t1 with instructions := mapAssign t1.instructions key (fun i1 =>
              { i1 with instruction_type := MutatingInstructionTypes.Erase }) }) },
       none)
    else (db, none)
  else (db, none)

/-- createTransaction, src/database.cpp lines 254-262. The Transaction
constructor (line 64) default-initialises an empty instruction map and
alive = true. -/
def createTransaction (db : Database) (tid : String) : Database × Option DbError :=
  if (mapFind db.transactions tid).isNone then
    ({ db with transactions := mapEmplace db.transactions tid { instructions := [], alive := true } },
     none)
  else (db, some DbError.DuplicateTransaction)

/-- rollbackTransaction, src/database.cpp lines 264-276: mark the transaction
dead, then erase it from the transaction map. -/
def rollbackTransaction (db : Database) (tid : String) : Database × Option DbError :=
  if (mapFind db.transactions tid).isNone then (db, some DbError.NoSuchTransaction)
  else
    let db1 := { db with transactions := mapAssign db.transactions tid (fun t1 => { t1 with alive := false }) }
    ({ db1 with transactions := mapErase db1.transactions tid }, none)

/-- Conflict test of the commit execution loop, src/database.cpp lines 317-324:
the snapshot is absent but the key is now alive, or the snapshot is present and
the key is not alive, or the snapshot is present, the key is alive and the live
value differs from the snapshot. -/
def conflictCheck (db : Database) (i : Instruction) : Bool :=
  (i.initial_value.isNone && keyIsAlive db i.key)
    || (i.initial_value.isSome && !(keyIsAlive db i.key))
    || (i.initial_value.isSome && keyIsAlive db i.key
          && (entryValue db i.key != i.initial_value))

/-- One instruction application inside the commit execution loop,
src/database.cpp lines 326-341. A Put dereferences final_value (undefined
behaviour when null) and assigns the existing entry or emplaces a new one; an
Erase calls data.at(inst.key) (std::out_of_range when the key is absent) and
tombstones the entry. -/
def applyInstruction (db : Database) (i : Instruction) : Database × Option DbError :=
  match i.instruction_type with
  | MutatingInstructionTypes.Put =>
    match i.final_value with
    | none => (db, some DbError.UndefinedBehavior)
    | some v =>
      if dataHasKey db i.key then
        ({ db with data := mapAssign db.data i.key (fun item => { item with value := v }) }, none)
      else
        ({ db with data := mapEmplace db.data i.key { value := v, alive := true } }, none)
  | MutatingInstructionTypes.Erase =>
    if dataHasKey db i.key then
      ({ db with data := mapAssign db.data i.key (fun item => { item with alive := false }) }, none)
    else (db, some DbError.OutOfRange)

/-- Outcome of the commit execution loop: the store after the applied prefix,
the last-applied-key marker, the suffix of instructions not applied (empty on
full success, headed by the conflicting instruction after a break), and the
exception, if any, that escaped the loop. -/
structure ExecResult where
  db : Database
  last : String
  remaining : List (String × Instruction)
  error : Option DbError
  deriving DecidableEq

/-- Execution loop of the commit protocol, src/database.cpp lines 309-343: walk
the instructions in key order, break at the first conflict, otherwise apply the
instruction and advance the last-applied-key marker. -/
def execInstructions (db : Database) (insts : List (String × Instruction)) (last : String) : ExecResult :=
  match insts with
  | [] => { db := db, last := last, remaining := [], error := none }
  | p :: rest =>
    if conflictCheck db p.2 then
      { db := db, last := last, remaining := p :: rest, error := none }
    else
      match applyInstruction db p.2 with
      | (db1, none) => execInstructions db1 rest p.2.key
      | (db1, some e) => { db := db1, last := last, remaining := p :: rest, error := some e }

/-- Outcome of the commit release phase: the store after tombstoned entries are
erased, the keys whose write mutex was unlocked, in unlock order, and the
exception, if any, that escaped the loop. -/
structure ReleaseResult where
  db : Database
  released : List String
  error : Option DbError
  deriving DecidableEq

/-- Body of the release loop, src/database.cpp lines 352-360: for each
instruction from the resumption point to rend, call data.at(key) (which raises
std::out_of_range when the key is absent) and unlock its write mutex, then erase
the entry when the instruction was an Erase. -/
def releaseWalk (db : Database) (items : List (String × Instruction)) : ReleaseResult :=
  match items with
  | [] => { db := db, released := [], error := none }
  | p :: rest =>
    if dataHasKey db p.2.key then
      let db1 :=
        if p.2.instruction_type = MutatingInstructionTypes.Erase then
          { db with data := mapErase db.data p.2.key }
        else db
      let r := releaseWalk db1 rest
      { r with released := p.2.key :: r.released }
    else { db := db, released := [], error := some DbError.OutOfRange }

/-- Release phase of the commit protocol, src/database.cpp lines 345-360: walk
the reversed instruction list, first stepping from rbegin to the last applied
key (dereferencing rend, undefined behaviour, if it is never found, which is the
empty-transaction case), then releasing from there. -/
def releasePhase (db : Database) (rev : List (String × Instruction)) (last : String) : ReleaseResult :=
  match rev with
  | [] => { db := db, released := [], error := some DbError.UndefinedBehavior }
  | p :: rest =>
    if p.2.key = last then releaseWalk db (p :: rest)
    else releasePhase db rest last

/-- Full outcome of commitTransaction: the final store, the keys whose write
mutex was locked during the acquisition step, in lock order, the keys whose
write mutex was unlocked during the release phase, in unlock order, and the
error, if any. -/
structure CommitResult where
  db : Database
  locked : List String
  released : List String
  error : Option DbError
  deriving DecidableEq

/-- Lock-acquisition step of the commit protocol, src/database.cpp lines
294-306: the write mutex of each instruction key that currently designates an
alive entry is locked, in instruction order. Locking mutates nothing, so the
step reduces to this bookkeeping list. The out_of_range catch on line 302 is
unreachable in the sequential model because data.at is only called on keys that
keyIsAlive just accepted, so the CommitFailed path never fires here. -/
def commitLockedKeys (db : Database) (insts : List (String × Instruction)) : List String :=
  (insts.filter (fun p => keyIsAlive db p.2.key)).map (fun p => p.2.key)

/-- Commit protocol body, src/database.cpp lines 294-370, entered with the
transaction present and alive. Line 310 reads instructions.begin() before any
emptiness test, so an empty instruction map dereferences the end iterator:
undefined behaviour. An exception escaping the execution loop propagates before
the release phase; an exception escaping the release phase propagates before the
transaction is erased. Otherwise the transaction is erased and the commit fails
with TransactionConflict exactly when the execution loop stopped early. -/
def commitBody (db : Database) (tid : String) (t : Transaction) : CommitResult :=
  let locked := commitLockedKeys db t.instructions
  match t.instructions with
  | [] => { db := db, locked := locked, released := [], error := some DbError.UndefinedBehavior }
  | p0 :: _ =>
    let er := execInstructions db t.instructions p0.2.key
    match er.error with
    | some e => { db := er.db, locked := locked, released := [], error := some e }
    | none =>
      let rr := releasePhase er.db t.instructions.reverse er.last
      match rr.error with
      | some e => { db := rr.db, locked := locked, released := rr.released, error := some e }
      | none =>
        if er.remaining ≠ [] then
          { db := { rr.db with transactions := mapErase rr.db.transactions tid },
            locked := locked, released := rr.released,
            error := some DbError.TransactionConflict }
        else
          { db := { rr.db with transactions := mapErase rr.db.transactions tid },
            locked := locked, released := rr.released, error := none }

/-- commitTransaction, src/database.cpp lines 278-370. The second liveness test
(line 288) repeats the first under trans_lock; sequentially it can never fire,
but it is kept to mirror the source. -/
def commitTransaction (db : Database) (tid : String) : CommitResult :=
  if !(transactionIsAlive db tid) then
    { db := db, locked := [], released := [], error := some DbError.NoSuchTransaction }
  else if !(transactionIsAlive db tid) then
    { db := db, locked := [], released := [], error := none }
  else
    match mapFind db.transactions tid with
    | none => { db := db, locked := [], released := [], error := some DbError.OutOfRange }
    | some t => commitBody db tid t

/-- No staged instruction of the list conflicts with the given store. -/
def conflictFree (db : Database) (insts : List (String × Instruction)) : Prop :=
  ∀ p ∈ insts, conflictCheck db p.2 = false

/-- The key fields of the staged instructions are pairwise distinct. This is a
structural invariant of every reachable transaction: its instructions live in a
std::map keyed by the instruction key. -/
def pairwiseKeysDistinct (insts : List (String × Instruction)) : Prop :=
  List.Pairwise (fun p q => p.2.key ≠ q.2.key) insts

/-- Every staged instruction carries a final_value. This is a structural
invariant of every reachable transaction: put creates instructions with a fresh
final_value and erase never clears it. -/
def allFinalPresent (insts : List (String × Instruction)) : Prop :=
  ∀ p ∈ insts, (p.2.final_value).isSome = true

/-- Every staged Erase instruction that does not conflict targets a key present
in the entry map of the given store. Committing a transaction that violates
this raises std::out_of_range from data.at inside the execution loop. -/
def erasePresent (db : Database) (insts : List (String × Instruction)) : Prop :=
  ∀ p ∈ insts, p.2.instruction_type = MutatingInstructionTypes.Erase →
    conflictCheck db p.2 = false → dataHasKey db p.2.key = true

/-- Store reached by: createTransaction t; put a 1 t; put b 2 t; auto-commit
put b X. The staged key b has been mutated outside the transaction. -/
def dbScenarioPrefixPersist : Database :=
  (put (putTxn (putTxn ((createTransaction { data := [], transactions := [] } "t").1)
      "a" "1" "t").1 "b" "2" "t").1 "b" "X").1

/-- Store reached by: createTransaction t; put k v t; commit will create key k. -/
def dbScenarioNewKeyCommit : Database :=
  (putTxn ((createTransaction { data := [], transactions := [] } "t").1) "k" "v" "t").1

/-- Store reached by: createTransaction t; put k v t, used as the concrete
witness input of the commit conflict specification. -/
def dbScenarioCommitWitness : Database :=
  (putTxn ((createTransaction { data := [], transactions := [] } "t").1) "k" "v" "t").1

/-- Store reached by: createTransaction t; put k v t; erase k t. The staged
instruction for k has instruction_type Erase while its key is absent from the
data store. -/
def dbScenarioEraseAbsent : Database :=
  (eraseTxn (putTxn ((createTransaction { data := [], transactions := [] } "t").1)
      "k" "v" "t").1 "k" "t").1

/-- Store reached by: createTransaction t; put k v t; erase k t, used for the
transaction-scoped get counterexample. -/
def dbScenarioGetAfterRemove : Database :=
  (eraseTxn (putTxn ((createTransaction { data := [], transactions := [] } "t").1)
      "k" "v" "t").1 "k" "t").1

/-- Store holding one tombstoned entry k (alive = false, value v) and one live
empty transaction t. Sequentially such a store is observable by a
transaction-scoped put racing a commit, because that put takes no entry guard. -/
def dbScenarioTombstone : Database :=
  { data := [("k", { value := "v", alive := false })],
    transactions := [("t", { instructions := [], alive := true })] }

/-- Store reached by: createTransaction t, with nothing staged. -/
def dbScenarioEmptyTxn : Database :=
  (createTransaction { data := [], transactions := [] } "t").1

/-- Store with one live transaction u and nothing else, used as the concrete
witness input for claims about transaction-scoped reads. -/
def dbScenarioOneTxn : Database :=
  (createTransaction { data := [], transactions := [] } "u").1

/-- Store with one live transaction t and nothing else, used as the concrete
witness input for the rollback-then-reuse conclusion. -/
def dbScenarioRollbackWitness : Database :=
  (createTransaction { data := [], transactions := [] } "t").1

/-- The single staged instruction of dbScenarioEraseAbsent. -/
def instEraseAbsent : Instruction :=
  { key := "k", initial_value := none, final_value := some "v",
    instruction_type := MutatingInstructionTypes.Erase }

/-- The single staged instruction of dbScenarioGetAfterRemove. -/
def instGetAfterRemove : Instruction :=
  { key := "k", initial_value := none, final_value := some "v",
    instruction_type := MutatingInstructionTypes.Erase }

theorem isSome_false_eq_none {α : Type} {o : Option α} (h : o.isSome = false) : o = none := by
  cases o with
  | none => rfl
  | some a => simp [Option.isSome] at h

theorem mapFind_mapAssign {α : Type} (m : List (String × α)) (k j : String) (f : α → α) :
    mapFind (mapAssign m k f) j = if k = j then (mapFind m j).map f else mapFind m j := by
  induction m with
  | nil =>
    simp only [mapAssign, mapFind]
    split <;> rfl
  | cons p rest ih =>
    obtain ⟨k1, v⟩ := p
    by_cases hk : k1 = k
    · subst hk
      by_cases hj : k1 = j
      · subst hj
        simp [mapAssign, mapFind]
      · simp [mapAssign, mapFind, hj, ih]
    · by_cases hj : k1 = j
      · subst hj
        have hkj : ¬ k = k1 := fun h => hk h.symm
        simp [mapAssign, mapFind, hk, hkj]
      · simp [mapAssign, mapFind, hk, hj, ih]

theorem mapFind_mapErase {α : Type} (m : List (String × α)) (k j : String) :
    mapFind (mapErase m k) j = if k = j then none else mapFind m j := by
  induction m with
  | nil =>
    simp only [mapErase, mapFind]
    split <;> rfl
  | cons p rest ih =>
    obtain ⟨k1, v⟩ := p
    by_cases hk : k1 = k
    · subst hk
      by_cases hj : k1 = j
      · subst hj
        simp [mapErase, mapFind, ih]
      · simp [mapErase, mapFind, hj, ih]
    · by_cases hj : k1 = j
      · subst hj
        have hkj : ¬ k = k1 := fun h => hk h.symm
        simp [mapErase, mapFind, hk, hkj]
      · simp [mapErase, mapFind, hk, hj, ih]

theorem mapFind_mapEmplace_ne {α : Type} (m : List (String × α)) (k j : String) (v : α)
    (h : k ≠ j) : mapFind (mapEmplace m k v) j = mapFind m j := by
  unfold mapEmplace
  split
  · rfl
  · simp [mapFind, h]

theorem mapFind_mapEmplace_self {α : Type} (m : List (String × α)) (k : String) (v : α)
    (h : mapFind m k = none) : mapFind (mapEmplace m k v) k = some v := by
  unfold mapEmplace
  simp [h, mapFind]

theorem mapFind_mapInsertSorted_self {α : Type} (m : List (String × α)) (k : String) (v : α)
    (h : mapFind m k = none) : mapFind (mapInsertSorted m k v) k = some v := by
  induction m with
  | nil => simp [mapInsertSorted, mapFind]
  | cons p rest ih =>
    obtain ⟨k1, v1⟩ := p
    simp only [mapFind] at h
    by_cases hk : k1 = k
    · simp [hk] at h
    · have h2 : mapFind rest k = none := by
        simpa [hk] using h
      by_cases hlt : strLt k k1 = true
      · simp [mapInsertSorted, hlt, mapFind]
      · have hke : ¬ k = k1 := fun he => hk he.symm
        simp [mapInsertSorted, hlt, hke, mapFind, hk, ih h2]

theorem keyIsAlive_congr {db1 db2 : Database} {k : String}
    (h : mapFind db1.data k = mapFind db2.data k) : keyIsAlive db1 k = keyIsAlive db2 k := by
  unfold keyIsAlive
  rw [h]

theorem dataHasKey_congr {db1 db2 : Database} {k : String}
    (h : mapFind db1.data k = mapFind db2.data k) : dataHasKey db1 k = dataHasKey db2 k := by
  unfold dataHasKey
  rw [h]

theorem entryValue_congr {db1 db2 : Database} {k : String}
    (h : mapFind db1.data k = mapFind db2.data k) : entryValue db1 k = entryValue db2 k := by
  unfold entryValue
  rw [h]

theorem conflictCheck_congr {db1 db2 : Database} {i : Instruction}
    (h : mapFind db1.data i.key = mapFind db2.data i.key) :
    conflictCheck db1 i = conflictCheck db2 i := by
  unfold conflictCheck
  rw [keyIsAlive_congr h, entryValue_congr h]

theorem dataHasKey_of_keyIsAlive {db : Database} {k : String}
    (h : keyIsAlive db k = true) : dataHasKey db k = true := by
  unfold keyIsAlive at h
  unfold dataHasKey
  cases hf : mapFind db.data k with
  | none => rw [hf] at h; exact absurd h (by simp)
  | some item => simp

/-- Claim C1 (code_bug): evaluated at the failing input, commitTransaction fails
with TransactionConflict because staged key b was mutated elsewhere, and yet the
staged write a = 1, which the execution loop applied before reaching the
conflict on b, persists in the store, although the store held no key a before
the commit began. -/
theorem commit_conflict_partial_write_persists :
    (commitTransaction dbScenarioPrefixPersist "t").error = some DbError.TransactionConflict ∧
    get (commitTransaction dbScenarioPrefixPersist "t").db "a" = some "1" ∧
    get dbScenarioPrefixPersist "a" = none :=
  ⟨rfl, rfl, rfl⟩

/-- Claim C2 counterexample: the live transaction of this store stages a single
Remove instruction on key k whose snapshot is absent and whose key is absent
from the store, so none of the three conflict conditions holds and the claim
promises a successful commit; the code instead raises std::out_of_range from
data.at inside the execution loop, so the commit neither succeeds nor fails
with TransactionConflict. -/
theorem commit_remove_absent_key_crash :
    transactionIsAlive dbScenarioEraseAbsent "t" = true ∧
    mapFind dbScenarioEraseAbsent.transactions "t" =
      some { instructions := [("k", instEraseAbsent)], alive := true } ∧
    conflictFree dbScenarioEraseAbsent [("k", instEraseAbsent)] ∧
    (commitTransaction dbScenarioEraseAbsent "t").error = some DbError.OutOfRange :=
  ⟨rfl, rfl, fun p hp => by rcases List.mem_singleton.mp hp with rfl; exact rfl, rfl⟩

/-- Claim C3 counterexample: after set(k,v,t) followed by remove(k,t) the staged
instruction for k has kind Remove, yet the transaction-scoped get returns the
stale final_value v instead of absent, because the code tests the final_value
pointer for null instead of inspecting the instruction kind. -/
theorem getTxn_remove_returns_final_value :
    mapFind dbScenarioGetAfterRemove.transactions "t" =
      some { instructions := [("k", instGetAfterRemove)], alive := true } ∧
    instGetAfterRemove.instruction_type = MutatingInstructionTypes.Erase ∧
    getTxn dbScenarioGetAfterRemove "k" "t" = Except.ok (some "v") :=
  ⟨rfl, rfl, rfl⟩

/-- Claim C3 (amended): for every live transaction and staged key, the
transaction-scoped get returns a copy of the final_value of the staged
instruction whenever that field is present, regardless of the instruction kind,
and returns absent only when final_value itself is absent; in particular after
set(k,v,tid) followed by remove(k,tid) it returns v, not absent. -/
theorem getTxn_staged_key_spec (db : Database) (key tid : String) (t : Transaction)
    (i : Instruction) (ht : mapFind db.transactions tid = some t) (halive : t.alive = true)
    (hi : mapFind t.instructions key = some i) :
    getTxn db key tid = Except.ok i.final_value := by
  simp [getTxn, transactionIsAlive, transactionHasKey, ht, halive, hi]

theorem getTxn_staged_key_spec_witness :
    getTxn dbScenarioGetAfterRemove "k" "t" = Except.ok instGetAfterRemove.final_value :=
  getTxn_staged_key_spec dbScenarioGetAfterRemove "k" "t"
    { instructions := [("k", instGetAfterRemove)], alive := true } instGetAfterRemove
    (by decide) (by decide) (by decide)

/-- Claim C4 counterexample: in the tombstone store the key k exists in the
entries map but is not alive, and a first-touch transaction-scoped set still
snapshots its value: the staged initial_value is some v where the claim
requires absent. -/
theorem putTxn_snapshot_tombstone :
    dataHasKey dbScenarioTombstone "k" = true ∧
    keyIsAlive dbScenarioTombstone "k" = false ∧
    mapFind (putTxn dbScenarioTombstone "k" "w" "t").1.transactions "t" =
      some { instructions :=
        [("k", { key := "k", initial_value := some "v", final_value := some "w",
                 instruction_type := MutatingInstructionTypes.Put })], alive := true } := by
  refine ⟨rfl, rfl, rfl⟩

/-- Claim C4 (amended): when a transaction-scoped set first stages a key, the
new instruction carries a snapshot initial_value exactly when the key currently
exists in the entries map, alive or tombstoned; the snapshot is then a copy of
the current entry value, and initial_value is absent only when the key is
absent from the map. -/
theorem putTxn_snapshot_iff_present (db : Database) (key value tid : String) (t : Transaction)
    (ht : mapFind db.transactions tid = some t) (halive : t.alive = true)
    (hnew : mapFind t.instructions key = none) :
    ∃ t1, mapFind (putTxn db key value tid).1.transactions tid = some t1 ∧
      ∃ i, mapFind t1.instructions key = some i ∧
        i.initial_value.isSome = dataHasKey db key ∧
        (∀ item, mapFind db.data key = some item → i.initial_value = some item.value) ∧
        i.final_value = some value ∧
        i.instruction_type = MutatingInstructionTypes.Put := by
  have halive2 : transactionIsAlive db tid = true := by
    unfold transactionIsAlive
    rw [ht]
    exact halive
  have hres : (putTxn db key value tid).1.transactions =
      mapAssign db.transactions tid (fun t1 =>
        { t1 with instructions :=
            mapInsertSorted t1.instructions key (newPutInstruction db key value) }) := by
    simp only [putTxn, halive2, ht, hnew, if_true]
  have hfind : mapFind (putTxn db key value tid).1.transactions tid =
      some { t with instructions :=
        mapInsertSorted t.instructions key (newPutInstruction db key value) } := by
    rw [hres, mapFind_mapAssign, if_pos rfl, ht]
    rfl
  refine ⟨_, hfind, _, mapFind_mapInsertSorted_self _ _ _ hnew, ?_, ?_, rfl, rfl⟩
  · cases hf : mapFind db.data key with
    | none => simp [newPutInstruction, dataHasKey, entryValue, hf]
    | some item => simp [newPutInstruction, dataHasKey, entryValue, hf]
  · intro item hitem
    simp [newPutInstruction, dataHasKey, entryValue, hitem]

theorem putTxn_snapshot_iff_present_witness :
    ∃ t1, mapFind (putTxn dbScenarioTombstone "k" "w" "t").1.transactions "t" = some t1 ∧
      ∃ i, mapFind t1.instructions "k" = some i ∧
        i.initial_value.isSome = dataHasKey dbScenarioTombstone "k" ∧
        (∀ item, mapFind dbScenarioTombstone.data "k" = some item →
          i.initial_value = some item.value) ∧
        i.final_value = some "w" ∧
        i.instruction_type = MutatingInstructionTypes.Put :=
  putTxn_snapshot_iff_present dbScenarioTombstone "k" "w" "t"
    { instructions := [], alive := true } (by decide) (by decide) (by decide)

/-- Claim C5 counterexample: on the empty store no transaction named t exists,
yet the transaction-scoped remove returns without error and without effect,
instead of failing with NoSuchTransaction as the claim requires. -/
theorem eraseTxn_unknown_tid_no_error :
    transactionIsAlive { data := [], transactions := [] } "t" = false ∧
    eraseTxn { data := [], transactions := [] } "k" "t" =
      ({ data := [], transactions := [] }, none) :=
  ⟨rfl, rfl⟩

/-- Claim C5 (amended): transaction-scoped set, get and commit on an id that is
not present in the transaction map fail with NoSuchTransaction, rollback on an
id absent from the map fails with NoSuchTransaction, and after rolling back an
existing transaction a subsequent transaction-scoped set on its id fails with
NoSuchTransaction; but the transaction-scoped remove on an unknown id is a
silent no-op rather than an error. -/
theorem noSuchTransaction_spec (db db2 : Database) (k v tid : String)
    (h1 : transactionsHasId db tid = false)
    (h2 : transactionsHasId db2 tid = true) :
    (putTxn db k v tid).2 = some DbError.NoSuchTransaction ∧
    getTxn db k tid = Except.error DbError.NoSuchTransaction ∧
    (commitTransaction db tid).error = some DbError.NoSuchTransaction ∧
    (rollbackTransaction db tid).2 = some DbError.NoSuchTransaction ∧
    eraseTxn db k tid = (db, none) ∧
    (putTxn (rollbackTransaction db2 tid).1 k v tid).2 = some DbError.NoSuchTransaction := by
  have hn : mapFind db.transactions tid = none := by
    unfold transactionsHasId at h1
    exact isSome_false_eq_none h1
  refine ⟨?_, ?_, ?_, ?_, ?_, ?_⟩
  · simp [putTxn, transactionIsAlive, hn]
  · simp [getTxn, transactionIsAlive, hn]
  · simp [commitTransaction, transactionIsAlive, hn]
  · simp [rollbackTransaction, hn]
  · simp [eraseTxn, transactionsHasId, hn]
  · have hs : (mapFind db2.transactions tid).isSome = true := h2
    obtain ⟨t2, ht2⟩ := Option.isSome_iff_exists.mp hs
    have hro : (rollbackTransaction db2 tid).1.transactions =
        mapErase (mapAssign db2.transactions tid (fun t1 => { t1 with alive := false })) tid := by
      simp [rollbackTransaction, ht2]
    have hfind : mapFind (rollbackTransaction db2 tid).1.transactions tid = none := by
      rw [hro, mapFind_mapErase, if_pos rfl]
    simp [putTxn, transactionIsAlive, hfind]

theorem noSuchTransaction_spec_witness :
    (putTxn { data := [], transactions := [] } "k" "v" "t").2 = some DbError.NoSuchTransaction ∧
    getTxn { data := [], transactions := [] } "k" "t" = Except.error DbError.NoSuchTransaction ∧
    (commitTransaction { data := [], transactions := [] } "t").error =
      some DbError.NoSuchTransaction ∧
    (rollbackTransaction { data := [], transactions := [] } "t").2 =
      some DbError.NoSuchTransaction ∧
    eraseTxn { data := [], transactions := [] } "k" "t" =
      ({ data := [], transactions := [] }, none) ∧
    (putTxn (rollbackTransaction dbScenarioRollbackWitness "t").1 "k" "v" "t").2 =
      some DbError.NoSuchTransaction :=
  noSuchTransaction_spec { data := [], transactions := [] } dbScenarioRollbackWitness
    "k" "v" "t" (by decide) (by decide)

/-- Claim C6 (code_bug): evaluated at the failing input, a commit whose only
instruction creates a previously absent key, the lock-acquisition step acquires
no write guard, yet the release phase releases the write guard of key k, the
entry the commit itself created: a release without a matching acquisition. -/
theorem commit_release_unacquired_guard :
    (commitTransaction dbScenarioNewKeyCommit "t").locked = [] ∧
    (commitTransaction dbScenarioNewKeyCommit "t").released = ["k"] ∧
    (commitTransaction dbScenarioNewKeyCommit "t").error = none :=
  ⟨rfl, rfl, rfl⟩

/-- Claim C7: in the sequential model an auto-commit set on an absent key or on
an existing live key always succeeds, so neither the ZombieKey branch nor the
WriteLost post-condition check ever fires, and an immediately following get
returns a copy equal to the requested value. -/
theorem put_get_roundtrip (db : Database) (k v : String)
    (h : dataHasKey db k = false ∨ keyIsAlive db k = true) :
    (put db k v).2 = none ∧ get (put db k v).1 k = some v := by
  cases h with
  | inl habs =>
    have hn : mapFind db.data k = none := by
      unfold dataHasKey at habs
      exact isSome_false_eq_none habs
    have hf : mapFind (mapEmplace db.data k { value := v, alive := true }) k =
        some { value := v, alive := true } := mapFind_mapEmplace_self _ _ _ hn
    simp [put, dataHasKey, hn, putPostCheck, hf, get, keyIsAlive, entryValue]
  | inr halive =>
    obtain ⟨item, hitem⟩ : ∃ item, mapFind db.data k = some item := by
      unfold keyIsAlive at halive
      cases hg : mapFind db.data k with
      | none => rw [hg] at halive; exact absurd halive (by simp)
      | some it => exact ⟨it, rfl⟩
    have halive2 : item.alive = true := by
      unfold keyIsAlive at halive
      rw [hitem] at halive
      exact halive
    have hf : mapFind (mapAssign db.data k (fun it => { it with value := v })) k =
        some { item with value := v } := by
      rw [mapFind_mapAssign, if_pos rfl, hitem]
      rfl
    simp [put, dataHasKey, keyIsAlive, hitem, halive2, putPostCheck, hf, get, entryValue]

theorem put_get_roundtrip_witness :
    (put { data := [], transactions := [] } "k" "v").2 = none ∧
    get (put { data := [], transactions := [] } "k" "v").1 "k" = some "v" :=
  put_get_roundtrip { data := [], transactions := [] } "k" "v" (Or.inl (by decide))

/-- Claim C8: a transaction-scoped set on a key absent from the store is visible
only inside the transaction: after openTransaction and set(k,v,t) the
transaction-scoped get returns v while the auto-commit get returns absent; and
on any key the transaction has not staged, the transaction-scoped get falls
through and returns exactly the auto-commit get. -/
theorem txn_isolation_spec (db : Database) (k v t : String) (db2 : Database) (k2 t2 : String)
    (hk : dataHasKey db k = false)
    (ht : transactionsHasId db t = false)
    (halive2 : transactionIsAlive db2 t2 = true)
    (hnk2 : transactionHasKey db2 t2 k2 = false) :
    (createTransaction db t).2 = none ∧
    (putTxn (createTransaction db t).1 k v t).2 = none ∧
    getTxn (putTxn (createTransaction db t).1 k v t).1 k t = Except.ok (some v) ∧
    get (putTxn (createTransaction db t).1 k v t).1 k = none ∧
    getTxn db2 k2 t2 = Except.ok (get db2 k2) := by
  have hn : mapFind db.transactions t = none := by
    unfold transactionsHasId at ht
    exact isSome_false_eq_none ht
  have hdn : mapFind db.data k = none := by
    unfold dataHasKey at hk
    exact isSome_false_eq_none hk
  have hcr2 : (createTransaction db t).2 = none := by
    simp [createTransaction, hn]
  have hcr1 : (createTransaction db t).1 =
      { db with transactions := mapEmplace db.transactions t { instructions := [], alive := true } } := by
    simp [createTransaction, hn]
  have hft : mapFind (mapEmplace db.transactions t
      ({ instructions := [], alive := true } : Transaction)) t =
      some { instructions := [], alive := true } := mapFind_mapEmplace_self _ _ _ hn
  have hinst : ({ instructions := [], alive := true } : Transaction).instructions = [] := rfl
  have hput : putTxn (createTransaction db t).1 k v t =
      ({ db with
          transactions :=
            mapAssign (mapEmplace db.transactions t { instructions := [], alive := true }) t
              (fun t1 =>
                { t1 with
                    instructions :=
                      mapInsertSorted t1.instructions k
                        (newPutInstruction (createTransaction db t).1 k v) }) },
       none) := by
    rw [hcr1]
    simp [putTxn, transactionIsAlive, hft, mapFind]
  have hnew : newPutInstruction (createTransaction db t).1 k v =
      { key := k, initial_value := none, final_value := some v,
        instruction_type := MutatingInstructionTypes.Put } := by
    rw [hcr1]
    simp [newPutInstruction, dataHasKey, hdn]
  have hft2 : mapFind (putTxn (createTransaction db t).1 k v t).1.transactions t =
      some { instructions :=
        [(k, { key := k, initial_value := none, final_value := some v,
               instruction_type := MutatingInstructionTypes.Put })], alive := true } := by
    rw [hput]
    show mapFind (mapAssign (mapEmplace db.transactions t { instructions := [], alive := true }) t _) t = _
    rw [mapFind_mapAssign, if_pos rfl, hft]
    simp [mapInsertSorted, hnew]
  refine ⟨hcr2, ?_, ?_, ?_, ?_⟩
  · rw [hput]
  · simp [getTxn, transactionIsAlive, transactionHasKey, hft2, mapFind]
  · have hdata : (putTxn (createTransaction db t).1 k v t).1.data = db.data := by
      rw [hput]
    simp [get, keyIsAlive, hdata, hdn]
  · simp [getTxn, halive2, hnk2]

theorem txn_isolation_spec_witness :
    (createTransaction { data := [], transactions := [] } "t").2 = none ∧
    (putTxn (createTransaction { data := [], transactions := [] } "t").1 "k" "v" "t").2 = none ∧
    getTxn (putTxn (createTransaction { data := [], transactions := [] } "t").1 "k" "v" "t").1
      "k" "t" = Except.ok (some "v") ∧
    get (putTxn (createTransaction { data := [], transactions := [] } "t").1 "k" "v" "t").1
      "k" = none ∧
    getTxn dbScenarioOneTxn "z" "u" = Except.ok (get dbScenarioOneTxn "z") :=
  txn_isolation_spec { data := [], transactions := [] } "k" "v" "t" dbScenarioOneTxn "z" "u"
    (by decide) (by decide) (by decide) (by decide)

theorem erase_noop (db : Database) (k : String) (h : keyIsAlive db k = false) :
    erase db k = db := by
  unfold erase
  rw [if_neg (by simp [h])]

theorem keyIsAlive_erase_self (db : Database) (k : String) :
    keyIsAlive (erase db k) k = false := by
  unfold erase
  by_cases ha : keyIsAlive db k = true
  · rw [if_pos ha]
    show (match mapFind (mapErase db.data k) k with
      | some item => item.alive
      | none => false) = false
    rw [mapFind_mapErase, if_pos rfl]
  · rw [if_neg ha]
    cases hb : keyIsAlive db k with
    | false => rfl
    | true => exact absurd hb ha

/-- Claim C9: the auto-commit remove of an absent or tombstoned key is a no-op
with no failure path, remove is idempotent, and after set(k,v) followed by
remove(k) the auto-commit get returns absent. -/
theorem erase_noop_idempotent (db : Database) (k v : String) :
    (keyIsAlive db k = false → erase db k = db) ∧
    erase (erase db k) k = erase db k ∧
    (∀ db1, put db k v = (db1, none) → get (erase db1 k) k = none) := by
  refine ⟨fun h => erase_noop db k h, ?_, ?_⟩
  · exact erase_noop (erase db k) k (keyIsAlive_erase_self db k)
  · intro db1 hput
    have h3 : keyIsAlive (erase db1 k) k = false := keyIsAlive_erase_self db1 k
    simp [get, h3]

theorem erase_noop_idempotent_witness :
    erase { data := [], transactions := [] } "k" = { data := [], transactions := [] } ∧
    get (erase (put { data := [], transactions := [] } "k" "v").1 "k") "k" = none :=
  ⟨(erase_noop_idempotent { data := [], transactions := [] } "k" "v").1 (by decide),
   (erase_noop_idempotent { data := [], transactions := [] } "k" "v").2.2
     (put { data := [], transactions := [] } "k" "v").1 (by decide)⟩

/-- Claim C10 (code_bug): committing an existing live transaction whose
instruction list is empty does not return successfully; the source reads
instructions.begin() before any emptiness test (line 310), dereferencing the
end iterator of the empty map, which is undefined behaviour, and in the model
the commit surfaces that instead of success. -/
theorem commit_empty_transaction_undefined :
    transactionIsAlive dbScenarioEmptyTxn "t" = true ∧
    mapFind dbScenarioEmptyTxn.transactions "t" = some { instructions := [], alive := true } ∧
    (commitTransaction dbScenarioEmptyTxn "t").error = some DbError.UndefinedBehavior :=
  ⟨rfl, rfl, rfl⟩

theorem applyInstruction_frame (db : Database) (i : Instruction) (k : String) (hk : i.key ≠ k) :
    mapFind (applyInstruction db i).1.data k = mapFind db.data k := by
  obtain ⟨ikey, iinit, ifin, itype⟩ := i
  simp only [Instruction.key] at hk
  cases itype with
  | Put =>
    cases ifin with
    | none => rfl
    | some v =>
      by_cases hd : dataHasKey db ikey = true
      · simp only [applyInstruction, hd, if_true]
        show mapFind (mapAssign db.data ikey (fun item => { item with value := v })) k = mapFind db.data k
        rw [mapFind_mapAssign, if_neg hk]
      · simp only [applyInstruction, hd, Bool.false_eq_true, if_false]
        show mapFind (mapEmplace db.data ikey { value := v, alive := true }) k = mapFind db.data k
        exact mapFind_mapEmplace_ne _ _ _ _ hk
  | Erase =>
    by_cases hd : dataHasKey db ikey = true
    · simp only [applyInstruction, hd, if_true]
      show mapFind (mapAssign db.data ikey (fun item => { item with alive := false })) k = mapFind db.data k
      rw [mapFind_mapAssign, if_neg hk]
    · simp only [applyInstruction, hd, Bool.false_eq_true, if_false]

theorem applyInstruction_ok (db : Database) (i : Instruction)
    (hfin : (i.final_value).isSome = true)
    (hkey : i.instruction_type = MutatingInstructionTypes.Erase → dataHasKey db i.key = true) :
    (applyInstruction db i).2 = none := by
  obtain ⟨ikey, iinit, ifin, itype⟩ := i
  cases itype with
  | Put =>
    cases ifin with
    | none => exact absurd hfin (by simp [Option.isSome])
    | some v =>
      by_cases hd : dataHasKey db ikey = true
      · simp only [applyInstruction, hd, if_true]
      · simp only [applyInstruction, hd, Bool.false_eq_true, if_false]
  | Erase =>
    have hd : dataHasKey db ikey = true := hkey rfl
    simp only [applyInstruction, hd, if_true]

theorem applyInstruction_put_published (db : Database) (i : Instruction) (v : String)
    (hty : i.instruction_type = MutatingInstructionTypes.Put) (hf : i.final_value = some v) :
    entryValue (applyInstruction db i).1 i.key = some v := by
  obtain ⟨ikey, iinit, ifin, itype⟩ := i
  simp only [Instruction.instruction_type] at hty
  simp only [Instruction.final_value] at hf
  subst hty
  subst hf
  by_cases hd : dataHasKey db ikey = true
  · obtain ⟨item, hitem⟩ : ∃ item, mapFind db.data ikey = some item := by
      unfold dataHasKey at hd
      cases hg : mapFind db.data ikey with
      | none => rw [hg] at hd; exact absurd hd (by simp)
      | some it => exact ⟨it, rfl⟩
    simp only [applyInstruction, hd, if_true]
    show entryValue { db with data := mapAssign db.data ikey (fun item => { item with value := v }) } ikey = some v
    unfold entryValue
    show (mapFind (mapAssign db.data ikey (fun item => { item with value := v })) ikey).map DataItem.value = some v
    rw [mapFind_mapAssign, if_pos rfl, hitem]
    rfl
  · have hn : mapFind db.data ikey = none := by
      unfold dataHasKey at hd
      cases hg : mapFind db.data ikey with
      | none => rfl
      | some it => rw [hg] at hd; exact absurd (by simp) hd
    simp only [applyInstruction, hd, Bool.false_eq_true, if_false]
    show entryValue { db with data := mapEmplace db.data ikey { value := v, alive := true } } ikey = some v
    unfold entryValue
    show (mapFind (mapEmplace db.data ikey { value := v, alive := true }) ikey).map DataItem.value = some v
    rw [mapFind_mapEmplace_self _ _ _ hn]
    rfl

theorem applyInstruction_erase_present (db : Database) (i : Instruction)
    (hty : i.instruction_type = MutatingInstructionTypes.Erase)
    (hd : dataHasKey db i.key = true) :
    (mapFind (applyInstruction db i).1.data i.key).isSome = true := by
  obtain ⟨ikey, iinit, ifin, itype⟩ := i
  simp only [Instruction.instruction_type] at hty
  subst hty
  simp only [Instruction.key] at hd
  obtain ⟨item, hitem⟩ : ∃ item, mapFind db.data ikey = some item := by
    unfold dataHasKey at hd
    cases hg : mapFind db.data ikey with
    | none => rw [hg] at hd; exact absurd hd (by simp)
    | some it => exact ⟨it, rfl⟩
  simp only [applyInstruction, hd, if_true]
  show (mapFind (mapAssign db.data ikey (fun item => { item with alive := false })) ikey).isSome = true
  rw [mapFind_mapAssign, if_pos rfl, hitem]
  rfl

theorem exec_spec (db0 : Database) :
    ∀ (insts : List (String × Instruction)) (db : Database) (last : String),
    (∀ p ∈ insts, mapFind db.data p.2.key = mapFind db0.data p.2.key) →
    pairwiseKeysDistinct insts →
    allFinalPresent insts →
    erasePresent db0 insts →
    ∃ pre suf,
      insts = pre ++ suf ∧
      (execInstructions db insts last).error = none ∧
      (execInstructions db insts last).remaining = suf ∧
      conflictFree db0 pre ∧
      (∀ q qs, suf = q :: qs → conflictCheck db0 q.2 = true) ∧
      ((pre = [] ∧ (execInstructions db insts last).last = last) ∨
        (∃ pre1 w, pre = pre1 ++ [w] ∧ (execInstructions db insts last).last = w.2.key)) ∧
      (∀ p ∈ pre, p.2.instruction_type = MutatingInstructionTypes.Put →
        entryValue (execInstructions db insts last).db p.2.key = p.2.final_value) ∧
      (∀ p ∈ pre, p.2.instruction_type = MutatingInstructionTypes.Erase →
        (mapFind (execInstructions db insts last).db.data p.2.key).isSome = true) ∧
      (∀ p ∈ suf,
        mapFind (execInstructions db insts last).db.data p.2.key = mapFind db0.data p.2.key) ∧
      (∀ k, (∀ p ∈ insts, p.2.key ≠ k) →
        mapFind (execInstructions db insts last).db.data k = mapFind db.data k) := by
  intro insts
  induction insts with
  | nil =>
    intro db last hagree hdist hfin herase
    refine ⟨[], [], rfl, rfl, rfl, ?_, ?_, Or.inl ⟨rfl, rfl⟩, ?_, ?_, ?_, ?_⟩
    · intro p hp
      cases hp
    · intro q qs h
      cases h
    · intro p hp
      cases hp
    · intro p hp
      cases hp
    · intro p hp
      cases hp
    · intro k hk
      rfl
  | cons p rest ih =>
    intro db last hagree hdist hfin herase
    have hagreep : mapFind db.data p.2.key = mapFind db0.data p.2.key := hagree p (by simp)
    obtain ⟨hdhead, hdtail⟩ := List.pairwise_cons.mp hdist
    by_cases hc : conflictCheck db p.2 = true
    · have hc0 : conflictCheck db0 p.2 = true := by
        rw [← conflictCheck_congr hagreep]
        exact hc
      have hexec : execInstructions db (p :: rest) last =
          { db := db, last := last, remaining := p :: rest, error := none } := by
        simp [execInstructions, hc]
      refine ⟨[], p :: rest, by simp, by rw [hexec], by rw [hexec], ?_, ?_,
        Or.inl ⟨rfl, by rw [hexec]⟩, ?_, ?_, ?_, ?_⟩
      · intro q hq
        cases hq
      · intro q qs h
        cases h
        exact hc0
      · intro q hq
        cases hq
      · intro q hq
        cases hq
      · intro q hq
        rw [hexec]
        exact hagree q hq
      · intro k hk
        rw [hexec]
    · have hcf : conflictCheck db p.2 = false := by
        cases h2 : conflictCheck db p.2 with
        | false => rfl
        | true => exact absurd h2 hc
      have hc0 : conflictCheck db0 p.2 = false := by
        rw [← conflictCheck_congr hagreep]
        exact hcf
      have hfinp : (p.2.final_value).isSome = true := hfin p (by simp)
      have herasep : p.2.instruction_type = MutatingInstructionTypes.Erase →
          dataHasKey db p.2.key = true := by
        intro hty
        rw [dataHasKey_congr hagreep]
        exact herase p (by simp) hty hc0
      have hok : (applyInstruction db p.2).2 = none := applyInstruction_ok db p.2 hfinp herasep
      have hpair : applyInstruction db p.2 = ((applyInstruction db p.2).1, none) := by
        rw [← hok]
      have hexec : execInstructions db (p :: rest) last =
          execInstructions (applyInstruction db p.2).1 rest p.2.key := by
        simp only [execInstructions, hcf, Bool.false_eq_true, if_false]
        rw [hpair]
      have hagree1 : ∀ q ∈ rest,
          mapFind (applyInstruction db p.2).1.data q.2.key = mapFind db0.data q.2.key := by
        intro q hq
        rw [applyInstruction_frame db p.2 q.2.key (hdhead q hq)]
        exact hagree q (by simp [hq])
      obtain ⟨pre1, suf, hsplit, herr, hrem, hcf1, hheadc, hlast, hpub, hpres, hsuf, hframe⟩ :=
        ih (applyInstruction db p.2).1 p.2.key hagree1 hdtail
          (fun q hq => hfin q (by simp [hq]))
          (fun q hq hty hcq => herase q (by simp [hq]) hty hcq)
      have hrestkeys : ∀ q ∈ rest, q.2.key ≠ p.2.key := by
        intro q hq
        exact fun he => (hdhead q hq) he.symm
      refine ⟨p :: pre1, suf, by simp [hsplit], by rw [hexec]; exact herr,
        by rw [hexec]; exact hrem, ?_, hheadc, ?_, ?_, ?_, ?_, ?_⟩
      · intro q hq
        rcases List.mem_cons.mp hq with h | h
        · rw [h]
          exact hc0
        · exact hcf1 q h
      · rcases hlast with ⟨hp1, hl⟩ | ⟨pre2, w, hw, hl⟩
        · exact Or.inr ⟨[], p, by rw [hp1]; rfl, by rw [hexec]; exact hl⟩
        · exact Or.inr ⟨p :: pre2, w, by rw [hw]; rfl, by rw [hexec]; exact hl⟩
      · intro q hq hty
        rcases List.mem_cons.mp hq with h | h
        · subst h
          obtain ⟨v, hv⟩ := Option.isSome_iff_exists.mp hfinp
          have hpub1 : entryValue (applyInstruction db q.2).1 q.2.key = some v :=
            applyInstruction_put_published db q.2 v hty hv
          rw [hexec]
          have hfr : mapFind (execInstructions (applyInstruction db q.2).1 rest q.2.key).db.data q.2.key =
              mapFind (applyInstruction db q.2).1.data q.2.key :=
            hframe q.2.key (hrestkeys)
          unfold entryValue at hpub1 ⊢
          rw [hfr, hv]
          exact hpub1
        · rw [hexec]
          exact hpub q h hty
      · intro q hq hty
        rcases List.mem_cons.mp hq with h | h
        · subst h
          have hd : dataHasKey db q.2.key = true := herasep hty
          have hpr : (mapFind (applyInstruction db q.2).1.data q.2.key).isSome = true :=
            applyInstruction_erase_present db q.2 hty hd
          rw [hexec]
          rw [hframe q.2.key (hrestkeys)]
          exact hpr
        · rw [hexec]
          exact hpres q h hty
      · intro q hq
        rw [hexec]
        exact hsuf q hq
      · intro k hk
        rw [hexec]
        rw [hframe k (fun q hq => hk q (by simp [hq]))]
        exact applyInstruction_frame db p.2 k (hk p (by simp))

theorem releaseWalk_spec (items : List (String × Instruction)) :
    ∀ db : Database,
    (∀ p ∈ items, (mapFind db.data p.2.key).isSome = true) →
    pairwiseKeysDistinct items →
    (releaseWalk db items).error = none ∧
    (releaseWalk db items).released = items.map (fun p => p.2.key) ∧
    (∀ p ∈ items, p.2.instruction_type = MutatingInstructionTypes.Erase →
      mapFind (releaseWalk db items).db.data p.2.key = none) ∧
    (∀ p ∈ items, ¬(p.2.instruction_type = MutatingInstructionTypes.Erase) →
      mapFind (releaseWalk db items).db.data p.2.key = mapFind db.data p.2.key) ∧
    (∀ k, (∀ p ∈ items, p.2.key ≠ k) →
      mapFind (releaseWalk db items).db.data k = mapFind db.data k) := by
  induction items with
  | nil =>
    intro db hpres hdist
    refine ⟨rfl, rfl, ?_, ?_, ?_⟩
    · intro p hp
      cases hp
    · intro p hp
      cases hp
    · intro k hk
      rfl
  | cons p rest ih =>
    intro db hpres hdist
    have hd : dataHasKey db p.2.key = true := hpres p (by simp)
    obtain ⟨hdhead, hdtail⟩ := List.pairwise_cons.mp hdist
    by_cases hty : p.2.instruction_type = MutatingInstructionTypes.Erase
    · have hstep : releaseWalk db (p :: rest) =
          { releaseWalk { db with data := mapErase db.data p.2.key } rest with
            released :=
              p.2.key :: (releaseWalk { db with data := mapErase db.data p.2.key } rest).released } := by
        simp only [releaseWalk, hd, if_true, hty, if_pos]
      have hfr1 : ∀ k, p.2.key ≠ k →
          mapFind (mapErase db.data p.2.key) k = mapFind db.data k := by
        intro k hk
        rw [mapFind_mapErase, if_neg hk]
      have hpres1 : ∀ q ∈ rest,
          (mapFind ({ db with data := mapErase db.data p.2.key } : Database).data q.2.key).isSome = true := by
        intro q hq
        show (mapFind (mapErase db.data p.2.key) q.2.key).isSome = true
        rw [hfr1 q.2.key (hdhead q hq)]
        exact hpres q (by simp [hq])
      obtain ⟨ierr, irel, ierase, iput, iframe⟩ :=
        ih { db with data := mapErase db.data p.2.key } hpres1 hdtail
      refine ⟨by rw [hstep]; exact ierr, by rw [hstep]; simp [irel], ?_, ?_, ?_⟩
      · intro q hq hqty
        rcases List.mem_cons.mp hq with h | h
        · subst h
          rw [hstep]
          show mapFind (releaseWalk { db with data := mapErase db.data q.2.key } rest).db.data q.2.key = none
          rw [iframe q.2.key (fun r hr => (hdhead r hr).symm)]
          · show mapFind (mapErase db.data q.2.key) q.2.key = none
            rw [mapFind_mapErase, if_pos rfl]
        · rw [hstep]
          exact ierase q h hqty
      · intro q hq hqty
        rcases List.mem_cons.mp hq with h | h
        · subst h
          exact absurd hty hqty
        · rw [hstep]
          have h1 := iput q h hqty
          rw [h1]
          exact hfr1 q.2.key (hdhead q h)
      · intro k hk
        rw [hstep]
        have h1 := iframe k (fun r hr => hk r (by simp [hr]))
        rw [h1]
        exact hfr1 k (hk p (by simp))
    · have hstep : releaseWalk db (p :: rest) =
          { releaseWalk db rest with
            released := p.2.key :: (releaseWalk db rest).released } := by
        simp only [releaseWalk, hd, if_true, hty, if_neg, if_false]
      have hpres1 : ∀ q ∈ rest, (mapFind db.data q.2.key).isSome = true := by
        intro q hq
        exact hpres q (by simp [hq])
      obtain ⟨ierr, irel, ierase, iput, iframe⟩ := ih db hpres1 hdtail
      refine ⟨by rw [hstep]; exact ierr, by rw [hstep]; simp [irel], ?_, ?_, ?_⟩
      · intro q hq hqty
        rcases List.mem_cons.mp hq with h | h
        · subst h
          exact absurd hqty hty
        · rw [hstep]
          exact ierase q h hqty
      · intro q hq hqty
        rcases List.mem_cons.mp hq with h | h
        · subst h
          rw [hstep]
          exact iframe q.2.key (fun r hr => (hdhead r hr).symm)
        · rw [hstep]
          exact iput q h hqty
      · intro k hk
        rw [hstep]
        exact iframe k (fun r hr => hk r (by simp [hr]))

theorem releasePhase_skip (last : String) :
    ∀ (B : List (String × Instruction)) (x : String × Instruction)
      (A : List (String × Instruction)) (db : Database),
    (∀ p ∈ B, p.2.key ≠ last) → x.2.key = last →
    releasePhase db (B ++ x :: A) last = releaseWalk db (x :: A) := by
  intro B
  induction B with
  | nil =>
    intro x A db hB hx
    simp only [List.nil_append, releasePhase, hx, if_pos]
  | cons b B1 ih =>
    intro x A db hB hx
    have hb : ¬(b.2.key = last) := hB b (by simp)
    simp only [List.cons_append, releasePhase, hb, if_false]
    exact ih x A db (fun p hp => hB p (by simp [hp])) hx

theorem keyIsAlive_of_not_conflict (db : Database) (i : Instruction)
    (hc : conflictCheck db i = false) (hs : i.initial_value.isSome = true) :
    keyIsAlive db i.key = true := by
  cases hka : keyIsAlive db i.key with
  | true => rfl
  | false =>
    unfold conflictCheck at hc
    rw [hka, hs] at hc
    simp at hc

theorem dataHasKey_of_conflict (db : Database) (i : Instruction)
    (hc : conflictCheck db i = true)
    (hh : ¬(i.initial_value.isSome = true ∧ dataHasKey db i.key = false)) :
    dataHasKey db i.key = true := by
  cases hd : dataHasKey db i.key with
  | true => rfl
  | false =>
    have hn : mapFind db.data i.key = none := by
      unfold dataHasKey at hd
      exact isSome_false_eq_none hd
    have hka : keyIsAlive db i.key = false := by
      unfold keyIsAlive
      rw [hn]
    unfold conflictCheck at hc
    rw [hka] at hc
    simp at hc
    exact absurd ⟨hc, hd⟩ hh

theorem commitTransaction_eq_body (db : Database) (tid : String) (t : Transaction)
    (ht : mapFind db.transactions tid = some t) (halive : t.alive = true) :
    commitTransaction db tid = commitBody db tid t := by
  have ha : transactionIsAlive db tid = true := by
    unfold transactionIsAlive
    rw [ht]
    exact halive
  simp [commitTransaction, ha, ht]

/-- Claim C2 (amended): for a live transaction with at least one staged
instruction, in which every instruction carries a final_value (as every
instruction created through the API does), every Remove instruction whose
snapshot is absent targets a key present in the entries map, and the first
staged instruction does not combine a present snapshot with a key absent from
the entries map (in the excluded cases commit instead crashes with
std::out_of_range or undefined behaviour rather than reporting an outcome):
commit fails with TransactionConflict exactly when some staged key satisfies
one of the three conflict conditions at commit time, and otherwise it succeeds,
publishes every Set instruction final_value, and removes every Remove
instruction key from the entries map. -/
theorem commit_conflict_iff (db : Database) (tid : String) (t : Transaction)
    (ht : mapFind db.transactions tid = some t) (halive : t.alive = true)
    (hne : t.instructions ≠ [])
    (hdist : pairwiseKeysDistinct t.instructions)
    (hfin : allFinalPresent t.instructions)
    (herase3 : ∀ p ∈ t.instructions, p.2.instruction_type = MutatingInstructionTypes.Erase →
      p.2.initial_value = none → dataHasKey db p.2.key = true)
    (hhead : ∀ q qs, t.instructions = q :: qs →
      ¬(q.2.initial_value.isSome = true ∧ dataHasKey db q.2.key = false)) :
    ((commitTransaction db tid).error = some DbError.TransactionConflict ↔
      ∃ p ∈ t.instructions, conflictCheck db p.2 = true) ∧
    (conflictFree db t.instructions →
      (commitTransaction db tid).error = none ∧
      ∀ p ∈ t.instructions,
        (p.2.instruction_type = MutatingInstructionTypes.Put →
          entryValue (commitTransaction db tid).db p.2.key = p.2.final_value) ∧
        (p.2.instruction_type = MutatingInstructionTypes.Erase →
          mapFind (commitTransaction db tid).db.data p.2.key = none)) := by
  rw [commitTransaction_eq_body db tid t ht halive]
  cases hinst : t.instructions with
  | nil => exact absurd hinst hne
  | cons p0 rest0 =>
    have hdist2 : pairwiseKeysDistinct (p0 :: rest0) := hinst ▸ hdist
    have hfin2 : allFinalPresent (p0 :: rest0) := hinst ▸ hfin
    have hhead2 : ¬(p0.2.initial_value.isSome = true ∧ dataHasKey db p0.2.key = false) :=
      hhead p0 rest0 hinst
    have herase2 : erasePresent db (p0 :: rest0) := by
      intro p hp hty hcf
      cases hiv : p.2.initial_value with
      | none => exact herase3 p (by rw [hinst]; exact hp) hty hiv
      | some v0 =>
        have hs : p.2.initial_value.isSome = true := by rw [hiv]; rfl
        exact dataHasKey_of_keyIsAlive (keyIsAlive_of_not_conflict db p.2 hcf hs)
    obtain ⟨pre, suf, hsplit, herr, hrem, hcfpre, hheadc, hlast, hpub, hpres, hsuf, hframe⟩ :=
      exec_spec db (p0 :: rest0) db p0.2.key (fun p hp => rfl) hdist2 hfin2 herase2
    have hPW : (pre ++ suf).Pairwise (fun p q => p.2.key ≠ q.2.key) := by
      rw [← hsplit]
      exact hdist2
    obtain ⟨hPWpre, hPWsuf, hPWcross⟩ := List.pairwise_append.mp hPW
    have hdistRevPre : pairwiseKeysDistinct pre.reverse := by
      unfold pairwiseKeysDistinct
      exact List.pairwise_reverse.mpr (hPWpre.imp (fun h => h.symm))
    have hprePresence : ∀ p ∈ pre,
        (mapFind (execInstructions db (p0 :: rest0) p0.2.key).db.data p.2.key).isSome = true := by
      intro p hp
      cases hpty : p.2.instruction_type with
      | Put =>
        have hppub := hpub p hp hpty
        have hfs : (p.2.final_value).isSome = true := by
          refine hfin2 p ?_
          rw [hsplit]
          exact List.mem_append_left _ hp
        unfold entryValue at hppub
        cases ho : mapFind (execInstructions db (p0 :: rest0) p0.2.key).db.data p.2.key with
        | none =>
          rw [ho] at hppub
          rw [← hppub] at hfs
          simp at hfs
        | some it => rfl
      | Erase => exact hpres p hp hpty
    cases suf with
    | nil =>
      have hpre : pre = p0 :: rest0 := by simpa using hsplit.symm
      rcases hlast with ⟨hpre0, hl⟩ | ⟨pre1, w, hw, hl⟩
      · rw [hpre0] at hpre
        cases hpre
      · obtain ⟨werr, wrel, werase, wput, wframe⟩ := releaseWalk_spec pre.reverse
          (execInstructions db (p0 :: rest0) p0.2.key).db
          (fun p hp => hprePresence p (List.mem_reverse.mp hp)) hdistRevPre
        have hrev2 : pre.reverse = w :: pre1.reverse := by
          rw [hw]
          simp
        have hrev : (p0 :: rest0).reverse = pre.reverse := by rw [hpre]
        have hphase : releasePhase (execInstructions db (p0 :: rest0) p0.2.key).db
            (p0 :: rest0).reverse (execInstructions db (p0 :: rest0) p0.2.key).last =
            releaseWalk (execInstructions db (p0 :: rest0) p0.2.key).db pre.reverse := by
          rw [hl, hrev, hrev2]
          exact releasePhase_skip w.2.key [] w pre1.reverse _ (fun p hp => absurd hp (by simp)) rfl
        have herrB : (commitBody db tid t).error = none := by
          simp only [commitBody, hinst, herr, hphase, werr, hrem]
          simp
        have hdbB : (commitBody db tid t).db.data =
            (releaseWalk (execInstructions db (p0 :: rest0) p0.2.key).db pre.reverse).db.data := by
          simp only [commitBody, hinst, herr, hphase, werr, hrem]
          simp
        refine ⟨?_, ?_⟩
        · constructor
          · intro htc
            rw [herrB] at htc
            cases htc
          · rintro ⟨p, hp, hcp⟩
            have h1 := hcfpre p (by rw [hpre]; exact hp)
            rw [h1] at hcp
            cases hcp
        · intro hconf
          refine ⟨herrB, ?_⟩
          intro p hp
          constructor
          · intro hty
            have hppub := hpub p (by rw [hpre]; exact hp) hty
            have hnE : ¬(p.2.instruction_type = MutatingInstructionTypes.Erase) := by
              rw [hty]
              intro hcon
              cases hcon
            have hw2 := wput p (List.mem_reverse.mpr (by rw [hpre]; exact hp)) hnE
            unfold entryValue at hppub ⊢
            rw [hdbB, hw2]
            exact hppub
          · intro hty
            have h1 := werase p (List.mem_reverse.mpr (by rw [hpre]; exact hp)) hty
            rw [hdbB]
            exact h1
    | cons q qs =>
      have hqmem : q ∈ p0 :: rest0 := by
        rw [hsplit]
        exact List.mem_append_right _ (by simp)
      have hqconf : conflictCheck db q.2 = true := hheadc q qs rfl
      have herrB : (commitBody db tid t).error = some DbError.TransactionConflict := by
        rcases hlast with ⟨hpre0, hl⟩ | ⟨pre1, w, hw, hl⟩
        · have hqeq : p0 = q ∧ rest0 = qs := by
            rw [hpre0] at hsplit
            simpa using hsplit
          obtain ⟨hq1, hq2⟩ := hqeq
          have hdq : dataHasKey db p0.2.key = true := by
            refine dataHasKey_of_conflict db p0.2 ?_ hhead2
            rw [hq1]
            exact hqconf
          have hpresq : (mapFind (execInstructions db (p0 :: rest0) p0.2.key).db.data
              p0.2.key).isSome = true := by
            rw [hsuf p0 (by rw [hq1]; simp)]
            exact hdq
          have hPW2 : (p0 :: rest0).Pairwise (fun p q => p.2.key ≠ q.2.key) := hdist2
          obtain ⟨hdh, _⟩ := List.pairwise_cons.mp hPW2
          have hphase : releasePhase (execInstructions db (p0 :: rest0) p0.2.key).db
              (p0 :: rest0).reverse (execInstructions db (p0 :: rest0) p0.2.key).last =
              releaseWalk (execInstructions db (p0 :: rest0) p0.2.key).db [p0] := by
            rw [hl, List.reverse_cons]
            exact releasePhase_skip p0.2.key rest0.reverse p0 [] _
              (fun p hp => ((hdh p (List.mem_reverse.mp hp)).symm : p.2.key ≠ p0.2.key)) rfl
          obtain ⟨werr, wrel, werase, wput, wframe⟩ := releaseWalk_spec [p0]
            (execInstructions db (p0 :: rest0) p0.2.key).db
            (fun p hp => by rcases List.mem_singleton.mp hp with rfl; exact hpresq)
            (by unfold pairwiseKeysDistinct; simp)
          simp only [commitBody, hinst, herr, hphase, werr, hrem]
          simp
        · have hwmem : w ∈ pre := by
            rw [hw]
            exact List.mem_append_right _ (by simp)
          have hcross : ∀ p ∈ (q :: qs).reverse, p.2.key ≠ w.2.key := by
            intro p hp
            exact (hPWcross w hwmem p (List.mem_reverse.mp hp)).symm
          have hrev : (p0 :: rest0).reverse = (q :: qs).reverse ++ (w :: pre1.reverse) := by
            rw [hsplit, hw]
            simp
          have hrev2 : pre.reverse = w :: pre1.reverse := by
            rw [hw]
            simp
          obtain ⟨werr, wrel, werase, wput, wframe⟩ := releaseWalk_spec pre.reverse
            (execInstructions db (p0 :: rest0) p0.2.key).db
            (fun p hp => hprePresence p (List.mem_reverse.mp hp)) hdistRevPre
          have hphase : releasePhase (execInstructions db (p0 :: rest0) p0.2.key).db
              (p0 :: rest0).reverse (execInstructions db (p0 :: rest0) p0.2.key).last =
              releaseWalk (execInstructions db (p0 :: rest0) p0.2.key).db pre.reverse := by
            rw [hl, hrev, hrev2]
            exact releasePhase_skip w.2.key (q :: qs).reverse w pre1.reverse _ hcross rfl
          simp only [commitBody, hinst, herr, hphase, werr, hrem]
          simp
      refine ⟨⟨fun _ => ⟨q, hqmem, hqconf⟩, fun _ => herrB⟩, ?_⟩
      intro hconf
      have h1 := hconf q hqmem
      rw [h1] at hqconf
      cases hqconf

theorem commit_conflict_iff_witness :
    (commitTransaction dbScenarioCommitWitness "t").error = none ∧
    entryValue (commitTransaction dbScenarioCommitWitness "t").db "k" = some "v" := by
  have h := commit_conflict_iff dbScenarioCommitWitness "t"
    { instructions :=
        [("k",
          { key := "k", initial_value := none, final_value := some "v",
            instruction_type := MutatingInstructionTypes.Put })],
      alive := true }
    (by decide) (by decide) (by decide)
    (by unfold pairwiseKeysDistinct; simp)
    (by unfold allFinalPresent; decide)
    (by decide)
    (by intro q qs hq; cases hq; decide)
  have h2 := h.2 (by unfold conflictFree; decide)
  refine ⟨h2.1, ?_⟩
  exact (h2.2
    ("k",
      { key := "k", initial_value := none, final_value := some "v",
        instruction_type := MutatingInstructionTypes.Put })
    (by simp)).1 rfl

end KVDB
